import Mathlib

/-!
Verification development for the gilot command-line driver (`src/gilot/app.py`).

The repository source available here is the driver module `app.py`.  Its pure
logic is embedded shallowly below:

* `globMatch` / `fnmatch` — model of the Python standard-library
  `fnmatch.fnmatch` used by `compose_filter` (the library itself is not part
  of the repository sources): `*` matches any run of characters, `?` matches
  exactly one character, every other character matches itself literally, and
  the whole pattern is matched against the whole name.  Character classes
  `[seq]` are not modelled; no pattern in this development uses them.
* `composeFilter` — `compose_filter` from `app.py`.
* `argsToDuration` — `args_to_duration` from `app.py`; the `Duration.range`
  and `Duration.months` constructors live in `gilot/core.py`, which is not
  among the sources, so they are modelled from the spec.
* table operations and the hotspot aggregation are likewise modelled from the
  spec where `gilot/core.py` is missing.
-/

deriving instance DecidableEq for Except

/-- All suffixes of a list, longest first, the empty suffix included. -/
def suffixes : List Char → List (List Char)
  | [] => [[]]
  | c :: s => (c :: s) :: suffixes s

/-- Model of Python `fnmatch.fnmatch` on explicit character lists.
`*` matches any (possibly empty) run of characters (the rest of the pattern
is tried against every suffix of the name), `?` matches exactly one
character, any other pattern character matches only itself; the match is
anchored at both ends.  First argument is the name, second the pattern. -/
def globMatch : List Char → List Char → Bool
  | s, [] => s.isEmpty
  | s, p :: ps =>
    if p == '*' then (suffixes s).any (fun t => globMatch t ps)
    else
      match s with
      | [] => false
      | c :: s' => (p == '?' || c == p) && globMatch s' ps

/-- `fnmatch(file_name, pattern)` on Lean strings. -/
def fnmatch (file_name pattern : String) : Bool :=
  globMatch file_name.data pattern.data

/-- Python's `x or default` applied to an optional list: `None` and the empty
list are falsy and give the default. -/
def pyOrList (o : Option (List String)) (dflt : List String) : List String :=
  match o with
  | none => dflt
  | some l => if l.isEmpty then dflt else l

/-- `compose_filter(allow, deny)` from `app.py` (lines 43–55): default the two
pattern lists with Python `or`, then accept a name iff it matches some allow
pattern and matches no deny pattern. -/
def composeFilter (allow deny : Option (List String)) : String → Bool :=
  let allow_list := pyOrList allow ["*"]
  let deny_list := pyOrList deny []
  fun file_name =>
    let is_allowed := allow_list.any (fun p => fnmatch file_name p)
    let is_denyed := deny_list.any (fun p => fnmatch file_name p)
    is_allowed && !is_denyed

example : fnmatch "src/a/b.py" "src/*.py" = true := by decide
example : fnmatch "src/a.py" "*.rb" = false := by decide
example : fnmatch "a/b" "a?b" = true := by decide
example : fnmatch "ab" "a" = false := by decide
example : composeFilter (some ["*.py"]) (some ["test*"]) "x.py" = true := by decide
example : composeFilter (some []) (some []) "a" = true := by decide

/-- Modelled from the spec: a point in calendar time, as used by the Duration
Resolver in `gilot/core.py` (not among the sources).  `monthIndex` counts
calendar months from an arbitrary epoch and `day` orders points within a
month; the order is lexicographic, so adding a positive number of calendar
months always moves strictly forward. -/
structure Date where
  monthIndex : ℤ
  day : ℤ
deriving DecidableEq

/-- Strict lexicographic order on dates, as a boolean. -/
def dateLt (a b : Date) : Bool :=
  a.monthIndex < b.monthIndex || (a.monthIndex == b.monthIndex && a.day < b.day)

/-- Calendar-month addition: `d + m months` keeps the day and shifts the
month index. -/
def addMonths (d : Date) (m : ℤ) : Date :=
  ⟨d.monthIndex + m, d.day⟩

/-- Modelled from the spec: a half-open time interval `[start, end)`. -/
structure Duration where
  start : Date
  stop : Date
deriving DecidableEq

/-- Modelled from the spec: the error raised by the Duration Resolver on
malformed or contradictory time-window parameters. -/
inductive DurationError where
  | invalidRange
deriving DecidableEq

/-- Modelled from the spec: `Duration.range(since, until)` from
`gilot/core.py` (not among the sources) — the interval `[since, until)`,
failing with `InvalidRangeError` when `since >= until`. -/
def Duration.range (since u : Date) : Except DurationError Duration :=
  if dateLt since u then .ok ⟨since, u⟩ else .error .invalidRange

/-- Modelled from the spec: `Duration.months(m, since=...)` from
`gilot/core.py` (not among the sources) — `[since, since + m months)` when
`since` is given, `[now - m months, now)` otherwise, failing with
`InvalidRangeError` when `m <= 0`. -/
def Duration.months (m : ℤ) (since : Option Date) (now : Date) :
    Except DurationError Duration :=
  if m ≤ 0 then .error .invalidRange
  else
    match since with
    | some s => .ok ⟨s, addMonths s m⟩
    | none => .ok ⟨addMonths now (-m), now⟩

/-- A value held by the `--since` or `--until` argparse field: either a
nonempty ISO date string (carrying the date it denotes) or the empty
string.  Python truthiness: the empty string is falsy. -/
inductive DateStr where
  | dateStr (d : Date)
  | emptyStr
deriving DecidableEq

/-- A value held by the `--month` argparse field: either a nonempty numeric
string (carrying the integer `int()` parses from it) or the empty string. -/
inductive NumStr where
  | numStr (z : ℤ)
  | emptyStr
deriving DecidableEq

/-- Python truthiness of an optional `--since`/`--until` value: `None` and
the empty string are falsy. -/
def truthyDate : Option DateStr → Bool
  | some (.dateStr _) => true
  | _ => false

/-- The date denoted by a truthy `--since`/`--until` value (junk default on
the falsy values, which the callers guard against). -/
def dateVal : Option DateStr → Date
  | some (.dateStr d) => d
  | _ => ⟨0, 0⟩

/-- Python truthiness of an optional `--month` value: `None` and the empty
string are falsy; every nonempty string (including `"0"`) is truthy. -/
def truthyNum : Option NumStr → Bool
  | some (.numStr _) => true
  | _ => false

/-- The integer `int()` parses from a truthy `--month` value (junk default on
the falsy values, which the callers guard against). -/
def numVal : Option NumStr → ℤ
  | some (.numStr z) => z
  | _ => 0

/-- The duration-relevant argparse fields of `args`. -/
structure DurationArgs where
  since : Option DateStr
  until_ : Option DateStr
  month : Option NumStr
deriving DecidableEq

/-- `args_to_duration(args)` from `app.py` (lines 58–68): a five-way
truthiness dispatch, first match wins.  `now` is the current time consulted
by `Duration.months` when no `since` is given. -/
def argsToDuration (args : DurationArgs) (now : Date) :
    Except DurationError Duration :=
  if truthyDate args.since && truthyDate args.until_ then
    Duration.range (dateVal args.since) (dateVal args.until_)
  else if truthyDate args.since && truthyNum args.month then
    Duration.months (numVal args.month) (some (dateVal args.since)) now
  else if truthyDate args.since then
    Duration.months 6 (some (dateVal args.since)) now
  else if truthyNum args.month then
    Duration.months (numVal args.month) none now
  else
    Duration.months 6 none now

example :
    argsToDuration ⟨some (.dateStr ⟨0, 1⟩), some (.dateStr ⟨5, 1⟩), none⟩ ⟨100, 1⟩ =
      .ok ⟨⟨0, 1⟩, ⟨5, 1⟩⟩ := by decide
example :
    argsToDuration ⟨none, none, none⟩ ⟨100, 1⟩ = .ok ⟨⟨94, 1⟩, ⟨100, 1⟩⟩ := by decide
example :
    argsToDuration ⟨none, none, some (.numStr 0)⟩ ⟨100, 1⟩ = .error .invalidRange := by
  decide
example :
    argsToDuration ⟨some (.dateStr ⟨0, 1⟩), some (.dateStr ⟨5, 1⟩), some (.numStr 0)⟩
      ⟨100, 1⟩ = .ok ⟨⟨0, 1⟩, ⟨5, 1⟩⟩ := by decide
example :
    argsToDuration ⟨some (.dateStr ⟨3, 1⟩), some .emptyStr, none⟩ ⟨100, 1⟩ =
      .ok ⟨⟨3, 1⟩, ⟨9, 1⟩⟩ := by decide

/-- Modelled from the spec: one row of a commit table loaded in full-detail
mode — `hash`, `author`, `timestamp` and the list of touched file paths. -/
structure CommitRow where
  hash : String
  author : String
  timestamp : ℤ
  files : List String
deriving DecidableEq

/-- Modelled from the spec: the expansion of one commit row into one row per
touched file. -/
structure FileChangeRecord where
  hash : String
  author : String
  timestamp : ℤ
  file_name : String
deriving DecidableEq

/-- Modelled from the spec: `filter_files(table, predicate)` from
`gilot/core.py` (not among the sources) — retain the rows whose `file_name`
satisfies the predicate. -/
def filterFiles (t : List FileChangeRecord) (p : String → Bool) :
    List FileChangeRecord :=
  t.filter (fun r => p r.file_name)

/-- Modelled from the spec: `expand_files(predicate)` from `gilot/core.py`
(not among the sources) — expand every commit row into per-file change
records and keep those whose `file_name` satisfies the predicate. -/
def expandFiles (t : List CommitRow) (p : String → Bool) :
    List FileChangeRecord :=
  (t.flatMap fun c => c.files.map fun f => ⟨c.hash, c.author, c.timestamp, f⟩).filter
    (fun r => p r.file_name)

/-- Python truthiness of an argparse `nargs="*"` list option: `None` (flag
absent) and `[]` (flag given without values) are falsy. -/
def truthyList : Option (List String) → Bool
  | none => false
  | some l => !l.isEmpty

/-- The table stage of `handle_plot` (`app.py` lines 86–87): filter only when
`args.allow_files or args.ignore_files` is truthy, else pass the table on
unchanged. -/
def handlePlotTable (allow ignore : Option (List String))
    (df : List FileChangeRecord) : List FileChangeRecord :=
  if truthyList allow || truthyList ignore then
    filterFiles df (composeFilter allow ignore)
  else df

/-- The table stage of `handle_info` (`app.py` lines 95–96): identical
conditional filtering to `handle_plot`. -/
def handleInfoTable (allow ignore : Option (List String))
    (df : List FileChangeRecord) : List FileChangeRecord :=
  if truthyList allow || truthyList ignore then
    filterFiles df (composeFilter allow ignore)
  else df

/-- The expansion stage of `handle_hotspot` (`app.py` lines 104–108): the
composed filter is always passed to `expand_files`. -/
def handleHotspotInput (allow ignore : Option (List String))
    (df : List CommitRow) : List FileChangeRecord :=
  expandFiles df (composeFilter allow ignore)

/-- The expansion stage of `handle_hotgraph` (`app.py` lines 118–119): the
composed filter is always passed to `expand_files`. -/
def handleHotgraphInput (allow ignore : Option (List String))
    (df : List CommitRow) : List FileChangeRecord :=
  expandFiles df (composeFilter allow ignore)

/-- Modelled from the spec: one row of the hotspot report. -/
structure HotspotRow where
  file_name : String
  commits : ℕ
  authors : ℕ
  hotspot : ℕ
deriving DecidableEq

/-- The report ordering: `hotspot` descending, ties broken by `file_name`
ascending. -/
def hotspotOrder (a b : HotspotRow) : Prop :=
  b.hotspot < a.hotspot ∨ (a.hotspot = b.hotspot ∧ a.file_name ≤ b.file_name)

instance : DecidableRel hotspotOrder := fun a b => by
  unfold hotspotOrder; infer_instance

instance : IsTotal HotspotRow hotspotOrder where
  total a b := by
    unfold hotspotOrder
    rcases Nat.lt_trichotomy a.hotspot b.hotspot with h | h | h
    · exact Or.inr (Or.inl h)
    · rcases le_total a.file_name b.file_name with hf | hf
      · exact Or.inl (Or.inr ⟨h, hf⟩)
      · exact Or.inr (Or.inr ⟨h.symm, hf⟩)
    · exact Or.inl (Or.inl h)

instance : IsTrans HotspotRow hotspotOrder where
  trans a b c hab hbc := by
    unfold hotspotOrder at *
    rcases hab with h1 | ⟨h1, hf1⟩ <;> rcases hbc with h2 | ⟨h2, hf2⟩
    · exact Or.inl (h2.trans h1)
    · exact Or.inl (h2 ▸ h1)
    · exact Or.inl (h1 ▸ h2)
    · exact Or.inr ⟨h1.trans h2, hf1.trans hf2⟩

/-- Modelled from the spec: the Hotspot Aggregator of `gilot/core.py` (not
among the sources) — group the expanded table by `file_name`, count distinct
hashes and distinct authors per group, score with the spec's default
monotone combination `commits * authors`, and sort by score descending with
ties broken by file name ascending. -/
def hotspotAggregate (t : List FileChangeRecord) : List HotspotRow :=
  let names := (t.map (fun r => r.file_name)).dedup
  let rows := names.map fun n =>
    let grp := t.filter (fun r => r.file_name == n)
    let commits := ((grp.map (fun r => r.hash)).dedup).length
    let authors := ((grp.map (fun r => r.author)).dedup).length
    ⟨n, commits, authors, commits * authors⟩
  List.insertionSort hotspotOrder rows

example :
    hotspotAggregate
      [⟨"h1", "x", 0, "a"⟩, ⟨"h1", "x", 0, "b"⟩, ⟨"h2", "y", 1, "a"⟩] =
      [⟨"a", 2, 2, 4⟩, ⟨"b", 1, 1, 1⟩] := by decide

theorem nil_mem_suffixes (s : List Char) : [] ∈ suffixes s := by
  induction s with
  | nil => simp [suffixes]
  | cons c s ih => simp [suffixes, ih]

theorem globMatch_star_all (s : List Char) : globMatch s ['*'] = true := by
  have h : (suffixes s).any (fun t => globMatch t []) = true :=
    List.any_eq_true.mpr ⟨[], nil_mem_suffixes s, rfl⟩
  simpa [globMatch] using h

theorem fnmatch_star (n : String) : fnmatch n "*" = true :=
  globMatch_star_all n.data

/-- C3: with no allow patterns the filter defaults to the single
match-everything pattern `"*"`, with no deny patterns the deny list defaults
to empty, and the resulting default predicate accepts every file name. -/
theorem composeFilter_defaults (allow deny : Option (List String)) (n : String) :
    composeFilter none deny n = composeFilter (some ["*"]) deny n ∧
    composeFilter allow none n = composeFilter allow (some []) n ∧
    composeFilter none none n = true := by
  refine ⟨rfl, rfl, ?_⟩
  simp [composeFilter, pyOrList, fnmatch_star]

/-- C1 counterexample: with the explicitly supplied empty allow list the
built predicate accepts `"a"`, although `"a"` matches no allow pattern, so
the claimed equivalence fails. -/
theorem composeFilter_semantics_counterexample :
    composeFilter (some []) (some []) "a" = true ∧
    (([] : List String).any (fun p => fnmatch "a" p) &&
      !(([] : List String).any (fun p => fnmatch "a" p))) = false := by decide

/-- C1 (amended): for every NONEMPTY allow pattern list and every deny
pattern list, the predicate built by `compose_filter` returns true on a name
iff the name matches at least one allow pattern and matches no deny pattern
(an empty or absent allow list is first replaced by the default `["*"]`). -/
theorem composeFilter_semantics (allow deny : List String) (n : String)
    (h : allow ≠ []) :
    composeFilter (some allow) (some deny) n =
      (allow.any (fun p => fnmatch n p) && !(deny.any (fun p => fnmatch n p))) := by
  cases allow with
  | nil => exact absurd rfl h
  | cons a as =>
    cases deny with
    | nil => simp [composeFilter, pyOrList]
    | cons d ds => simp [composeFilter, pyOrList]

theorem composeFilter_semantics_witness :
    (["*.py"] : List String) ≠ [] ∧
    composeFilter (some ["*.py"]) (some ["test*"]) "x.py" =
      ((["*.py"] : List String).any (fun p => fnmatch "x.py" p) &&
        !((["test*"] : List String).any (fun p => fnmatch "x.py" p))) :=
  ⟨by decide, composeFilter_semantics ["*.py"] ["test*"] "x.py" (by decide)⟩

/-- C8: an explicitly supplied empty allow list is indistinguishable from an
absent one — both default to `["*"]` under Python `or` — so the predicate
accepts exactly the names not matched by any deny pattern. -/
theorem composeFilter_empty_allow (deny : Option (List String))
    (deny2 : List String) (n : String) :
    composeFilter (some []) deny n = composeFilter none deny n ∧
    composeFilter (some []) (some deny2) n = !(deny2.any (fun p => fnmatch n p)) := by
  refine ⟨rfl, ?_⟩
  cases deny2 with
  | nil => simp [composeFilter, pyOrList, fnmatch_star]
  | cons d ds => simp [composeFilter, pyOrList, fnmatch_star]

/-- C7: the built predicate is pure and deterministic — repeated evaluation
on the same name gives the same boolean, the result depends only on the two
pattern lists and the name, and mapping the predicate over many names
evaluates each name independently. -/
theorem composeFilter_deterministic (allow deny : Option (List String))
    (n : String) (ns : List String) :
    composeFilter allow deny n = composeFilter allow deny n ∧
    (∀ allow2 deny2 m, allow = allow2 → deny = deny2 → n = m →
      composeFilter allow deny n = composeFilter allow2 deny2 m) ∧
    ns.map (composeFilter allow deny) =
      ns.map (fun m => composeFilter allow deny m) := by
  refine ⟨rfl, ?_, rfl⟩
  intro allow2 deny2 m h1 h2 h3
  rw [h1, h2, h3]

theorem composeFilter_deterministic_witness :
    composeFilter (some ["*.py"]) none "a.py" = composeFilter (some ["*.py"]) none "a.py" :=
  (composeFilter_deterministic (some ["*.py"]) none "a.py" []).2.1
    (some ["*.py"]) none "a.py" rfl rfl rfl

theorem mem_suffixes (s t : List Char) : t ∈ suffixes s ↔ ∃ s₁, s = s₁ ++ t := by
  induction s with
  | nil =>
    simp only [suffixes, List.mem_singleton]
    constructor
    · rintro rfl; exact ⟨[], rfl⟩
    · rintro ⟨s₁, h⟩
      rcases List.append_eq_nil.mp h.symm with ⟨-, rfl⟩
      rfl
  | cons c s ih =>
    simp only [suffixes, List.mem_cons, ih]
    constructor
    · rintro (rfl | ⟨s₁, rfl⟩)
      · exact ⟨[], rfl⟩
      · exact ⟨c :: s₁, rfl⟩
    · rintro ⟨s₁, h⟩
      cases s₁ with
      | nil => exact Or.inl h.symm
      | cons c' s₁ =>
        rcases List.cons.injEq .. ▸ h with ⟨rfl, rfl⟩
        exact Or.inr ⟨s₁, rfl⟩

theorem globMatch_star_iff (s q : List Char) :
    globMatch s ('*' :: q) = true ↔
      ∃ s₁ s₂, s = s₁ ++ s₂ ∧ globMatch s₂ q = true := by
  have h : globMatch s ('*' :: q) = (suffixes s).any (fun t => globMatch t q) := by
    simp [globMatch]
  rw [h, List.any_eq_true]
  constructor
  · rintro ⟨t, ht, hf⟩
    obtain ⟨s₁, rfl⟩ := (mem_suffixes s t).mp ht
    exact ⟨s₁, t, rfl, hf⟩
  · rintro ⟨s₁, s₂, rfl, hf⟩
    exact ⟨s₂, (mem_suffixes _ _).mpr ⟨s₁, rfl⟩, hf⟩

theorem globMatch_qmark_iff (s q : List Char) :
    globMatch s ('?' :: q) = true ↔
      ∃ c s', s = c :: s' ∧ globMatch s' q = true := by
  cases s with
  | nil =>
    rw [show globMatch [] ('?' :: q) = false from rfl]
    simp
  | cons c s' =>
    rw [show globMatch (c :: s') ('?' :: q) = globMatch s' q from rfl]
    constructor
    · intro hf; exact ⟨c, s', rfl, hf⟩
    · rintro ⟨c', s'', heq, hf⟩
      rcases List.cons.injEq .. ▸ heq with ⟨rfl, rfl⟩
      exact hf

/-- A pattern with neither `*` nor `?`. -/
def isLiteralPat (p : List Char) : Bool :=
  p.all (fun c => !(c == '*') && !(c == '?'))

theorem globMatch_literal (p : List Char) (h : isLiteralPat p = true)
    (s : List Char) : (globMatch s p = true ↔ s = p) := by
  induction p generalizing s with
  | nil => cases s <;> simp [globMatch]
  | cons c p ih =>
    rw [isLiteralPat, List.all_cons, Bool.and_eq_true, Bool.and_eq_true,
      Bool.not_eq_true', Bool.not_eq_true'] at h
    obtain ⟨⟨hstar, hq⟩, hrest⟩ := h
    cases s with
    | nil =>
      simp [globMatch, hstar]
    | cons a s' =>
      simp only [globMatch, hstar, Bool.false_eq_true, if_false, hq, Bool.false_or,
        Bool.and_eq_true, beq_iff_eq, ih hrest, List.cons.injEq]

/-- C4: glob semantics of the file filter's matcher — a leading `*` matches
exactly the names some suffix of which matches the rest of the pattern (any
run of characters, with no recursive-path special-casing, so it may span
`/`), a leading `?` consumes exactly one character, a wildcard-free pattern
matches exactly itself (the pattern is anchored against the full path
string), and concretely `*` and `?` both cross the path separator. -/
theorem glob_semantics (s q p : List Char) (h : isLiteralPat p = true) :
    (globMatch s ('*' :: q) = true ↔
      ∃ s₁ s₂, s = s₁ ++ s₂ ∧ globMatch s₂ q = true) ∧
    (globMatch s ('?' :: q) = true ↔
      ∃ c s', s = c :: s' ∧ globMatch s' q = true) ∧
    (globMatch s p = true ↔ s = p) ∧
    fnmatch "a/b" "a*b" = true ∧
    fnmatch "src/x/y.py" "src/*.py" = true ∧
    fnmatch "a/b" "a?b" = true :=
  ⟨globMatch_star_iff s q, globMatch_qmark_iff s q, globMatch_literal p h s,
    by decide, by decide, by decide⟩

theorem glob_semantics_witness :
    isLiteralPat ['a', 'b'] = true ∧
    (globMatch ['x', 'a'] ('*' :: ['a']) = true ↔
      ∃ s₁ s₂, ['x', 'a'] = s₁ ++ s₂ ∧ globMatch s₂ ['a'] = true) :=
  ⟨by decide, (glob_semantics ['x', 'a'] ['a'] ['a', 'b'] (by decide)).1⟩

theorem truthyDate_dateStr (d : Date) : truthyDate (some (.dateStr d)) = true := rfl

theorem dateVal_dateStr (d : Date) : dateVal (some (.dateStr d)) = d := rfl

theorem truthyNum_numStr (z : ℤ) : truthyNum (some (.numStr z)) = true := rfl

theorem numVal_numStr (z : ℤ) : numVal (some (.numStr z)) = z := rfl

/-- C2: the five construction rules of `args_to_duration`, mutually
exclusive in first-match-wins order — `since` and `until` give
`[since, until)`; `since` and a month count `m` give
`[since, since + m months)`; `since` alone gives `[since, since + 6
months)`; a month count `m` alone gives `[now - m months, now)`; with none
supplied the result is `[now - 6 months, now)`, so the default window is 6
months. -/
theorem args_to_duration_rules (s u : Option DateStr) (mo : Option NumStr)
    (now : Date) :
    (∀ ds du, s = some (.dateStr ds) → u = some (.dateStr du) →
      dateLt ds du = true →
      argsToDuration ⟨s, u, mo⟩ now = .ok ⟨ds, du⟩) ∧
    (∀ ds m, s = some (.dateStr ds) → truthyDate u = false →
      mo = some (.numStr m) → 0 < m →
      argsToDuration ⟨s, u, mo⟩ now = .ok ⟨ds, addMonths ds m⟩) ∧
    (∀ ds, s = some (.dateStr ds) → truthyDate u = false →
      truthyNum mo = false →
      argsToDuration ⟨s, u, mo⟩ now = .ok ⟨ds, addMonths ds 6⟩) ∧
    (∀ m, truthyDate s = false → mo = some (.numStr m) → 0 < m →
      argsToDuration ⟨s, u, mo⟩ now = .ok ⟨addMonths now (-m), now⟩) ∧
    (truthyDate s = false → truthyNum mo = false →
      argsToDuration ⟨s, u, mo⟩ now = .ok ⟨addMonths now (-6), now⟩) := by
  refine ⟨?_, ?_, ?_, ?_, ?_⟩
  · rintro ds du rfl rfl hlt
    simp [argsToDuration, truthyDate_dateStr, dateVal_dateStr, Duration.range,
      hlt]
  · rintro ds m rfl hu rfl hm
    simp [argsToDuration, truthyDate_dateStr, truthyNum_numStr, dateVal_dateStr,
      numVal_numStr, hu, Duration.months, not_le.mpr hm]
  · rintro ds rfl hu hm
    simp [argsToDuration, truthyDate_dateStr, dateVal_dateStr, hu, hm,
      Duration.months, show ¬((6 : ℤ) ≤ 0) by norm_num]
  · rintro m hs rfl hm
    simp [argsToDuration, truthyNum_numStr, numVal_numStr, hs,
      Duration.months, not_le.mpr hm]
  · intro hs hm
    simp [argsToDuration, hs, hm, Duration.months,
      show ¬((6 : ℤ) ≤ 0) by norm_num]

theorem args_to_duration_rules_witness :
    argsToDuration ⟨some (.dateStr ⟨0, 1⟩), some (.dateStr ⟨5, 2⟩), none⟩
        ⟨100, 0⟩ = .ok ⟨⟨0, 1⟩, ⟨5, 2⟩⟩ ∧
    argsToDuration ⟨some (.dateStr ⟨0, 1⟩), none, some (.numStr 3)⟩
        ⟨100, 0⟩ = .ok ⟨⟨0, 1⟩, ⟨3, 1⟩⟩ ∧
    argsToDuration ⟨some (.dateStr ⟨0, 1⟩), none, none⟩
        ⟨100, 0⟩ = .ok ⟨⟨0, 1⟩, ⟨6, 1⟩⟩ ∧
    argsToDuration ⟨none, none, some (.numStr 2)⟩
        ⟨100, 0⟩ = .ok ⟨⟨98, 0⟩, ⟨100, 0⟩⟩ ∧
    argsToDuration ⟨none, none, none⟩
        ⟨100, 0⟩ = .ok ⟨⟨94, 0⟩, ⟨100, 0⟩⟩ :=
  ⟨(args_to_duration_rules _ _ _ _).1 ⟨0, 1⟩ ⟨5, 2⟩ rfl rfl (by decide),
    (args_to_duration_rules _ _ _ _).2.1 ⟨0, 1⟩ 3 rfl (by decide) rfl (by decide),
    (args_to_duration_rules _ _ _ _).2.2.1 ⟨0, 1⟩ rfl (by decide) (by decide),
    (args_to_duration_rules _ _ _ _).2.2.2.1 2 (by decide) rfl (by decide),
    (args_to_duration_rules _ _ _ _).2.2.2.2 (by decide) (by decide)⟩

theorem dateLt_addMonths_pos (d : Date) (m : ℤ) (h : 0 < m) :
    dateLt d (addMonths d m) = true := by
  simp only [dateLt, addMonths, Bool.or_eq_true, decide_eq_true_eq,
    Bool.and_eq_true, beq_iff_eq]
  omega

theorem dateLt_subMonths_pos (d : Date) (m : ℤ) (h : 0 < m) :
    dateLt (addMonths d (-m)) d = true := by
  simp only [dateLt, addMonths, Bool.or_eq_true, decide_eq_true_eq,
    Bool.and_eq_true, beq_iff_eq]
  omega

/-- C5 counterexample: `since` and `until` valid together with the month
string `"0"` — a month count `m <= 0` is supplied, yet `args_to_duration`
returns a duration instead of failing, because the month value is never
consulted once both `since` and `until` are truthy. -/
theorem args_to_duration_errors_counterexample :
    argsToDuration ⟨some (.dateStr ⟨0, 1⟩), some (.dateStr ⟨5, 1⟩),
        some (.numStr 0)⟩ ⟨100, 1⟩ = .ok ⟨⟨0, 1⟩, ⟨5, 1⟩⟩ ∧
    argsToDuration ⟨some (.dateStr ⟨0, 1⟩), some (.dateStr ⟨5, 1⟩),
        some (.numStr 0)⟩ ⟨100, 1⟩ ≠ .error .invalidRange := by decide


theorem range_error_iff (a b : Date) :
    Duration.range a b = .error .invalidRange ↔ dateLt a b = false := by
  unfold Duration.range
  split_ifs with h <;> simp [h]

theorem range_ok_lt (a b : Date) (dur : Duration)
    (h : Duration.range a b = .ok dur) : dateLt dur.start dur.stop = true := by
  unfold Duration.range at h
  split_ifs at h with hl
  cases h
  exact hl

theorem months_error_iff (m : ℤ) (o : Option Date) (now : Date) :
    Duration.months m o now = .error .invalidRange ↔ m ≤ 0 := by
  unfold Duration.months
  split_ifs with h
  · simp [h]
  · cases o <;> simp [h]

theorem months_ok_lt (m : ℤ) (o : Option Date) (now : Date) (dur : Duration)
    (h : Duration.months m o now = .ok dur) :
    dateLt dur.start dur.stop = true := by
  cases o with
  | some s0 =>
    unfold Duration.months at h
    dsimp only at h
    split_ifs at h with hm
    cases h
    exact dateLt_addMonths_pos _ _ (by omega)
  | none =>
    unfold Duration.months at h
    dsimp only at h
    split_ifs at h with hm
    cases h
    exact dateLt_subMonths_pos _ _ (by omega)

/-- C5 (amended): `args_to_duration` fails with `InvalidRangeError` exactly
when either both `since` and `until` are truthy with `since >= until`, or
`since` and `until` are NOT both truthy and a month count `m <= 0` is
supplied (a supplied month is never consulted once both `since` and `until`
are given); in every other configuration it returns a duration whose start
is strictly before its end. -/
theorem args_to_duration_errors (s u : Option DateStr) (mo : Option NumStr)
    (now : Date) :
    (argsToDuration ⟨s, u, mo⟩ now = .error .invalidRange ↔
      ((truthyDate s && truthyDate u) = true ∧
        dateLt (dateVal s) (dateVal u) = false) ∨
      ((truthyDate s && truthyDate u) = false ∧ truthyNum mo = true ∧
        numVal mo ≤ 0)) ∧
    (∀ dur, argsToDuration ⟨s, u, mo⟩ now = .ok dur →
      dateLt dur.start dur.stop = true) := by
  unfold argsToDuration
  dsimp only
  split_ifs with h1 h2 h3 h4
  · refine ⟨?_, fun dur => range_ok_lt _ _ dur⟩
    rw [range_error_iff]
    constructor
    · intro hf
      exact Or.inl ⟨h1, hf⟩
    · rintro (⟨-, hf⟩ | ⟨hfalse, -, -⟩)
      · exact hf
      · rw [h1] at hfalse; cases hfalse
  · have h1f : (truthyDate s && truthyDate u) = false := by simpa using h1
    have hm2 : truthyNum mo = true := (Bool.and_eq_true _ _ |>.mp h2).2
    refine ⟨?_, fun dur => months_ok_lt _ _ _ dur⟩
    rw [months_error_iff]
    constructor
    · intro hle
      exact Or.inr ⟨h1f, hm2, hle⟩
    · rintro (⟨hts, -⟩ | ⟨-, -, hle⟩)
      · rw [hts] at h1f; cases h1f
      · exact hle
  · have h1f : (truthyDate s && truthyDate u) = false := by simpa using h1
    have h2f : (truthyDate s && truthyNum mo) = false := by simpa using h2
    have hmf : truthyNum mo = false := by
      rw [h3] at h2f; simpa using h2f
    refine ⟨?_, fun dur => months_ok_lt _ _ _ dur⟩
    rw [months_error_iff]
    constructor
    · intro hle
      exact absurd hle (by norm_num)
    · rintro (⟨hts, -⟩ | ⟨-, htm, -⟩)
      · rw [hts] at h1f; cases h1f
      · rw [htm] at hmf; cases hmf
  · have h3f : truthyDate s = false := by simpa using h3
    have h1f : (truthyDate s && truthyDate u) = false := by simp [h3f]
    refine ⟨?_, fun dur => months_ok_lt _ _ _ dur⟩
    rw [months_error_iff]
    constructor
    · intro hle
      exact Or.inr ⟨h1f, h4, hle⟩
    · rintro (⟨hts, -⟩ | ⟨-, -, hle⟩)
      · rw [hts] at h1f; cases h1f
      · exact hle
  · have h3f : truthyDate s = false := by simpa using h3
    have h4f : truthyNum mo = false := by simpa using h4
    have h1f : (truthyDate s && truthyDate u) = false := by simp [h3f]
    refine ⟨?_, fun dur => months_ok_lt _ _ _ dur⟩
    rw [months_error_iff]
    constructor
    · intro hle
      exact absurd hle (by norm_num)
    · rintro (⟨hts, -⟩ | ⟨-, htm, -⟩)
      · rw [hts] at h1f; cases h1f
      · rw [htm] at h4f; cases h4f

theorem args_to_duration_errors_witness :
    dateLt (Date.mk 2 0) (Date.mk 8 0) = true :=
  (args_to_duration_errors (some (.dateStr ⟨2, 0⟩)) none none ⟨100, 0⟩).2
    ⟨⟨2, 0⟩, ⟨8, 0⟩⟩ (by decide)

/-- C10: presence of the duration parameters is decided by Python
truthiness, not by being supplied — an empty-string `until` (or `since`)
falls through to a later rule (`since` with empty `until` yields the
6-month window from `since`; empty `since` with a real `until` yields the
default window), while the month string `"0"` is truthy, is forwarded as
the integer 0, and makes `Duration.months` fail. -/
theorem truthiness_dispatch (d d2 now : Date) :
    argsToDuration ⟨some (.dateStr d), some .emptyStr, none⟩ now =
      .ok ⟨d, addMonths d 6⟩ ∧
    argsToDuration ⟨some .emptyStr, some (.dateStr d2), none⟩ now =
      .ok ⟨addMonths now (-6), now⟩ ∧
    argsToDuration ⟨none, none, some (.numStr 0)⟩ now =
      .error .invalidRange ∧
    argsToDuration ⟨some (.dateStr d), none, some (.numStr 0)⟩ now =
      .error .invalidRange := by
  refine ⟨?_, ?_, ?_, ?_⟩ <;>
    simp [argsToDuration, truthyDate, truthyNum, dateVal, numVal,
      Duration.months, show ¬((6 : ℤ) ≤ 0) by norm_num]

/-- C6: every hotspot report is sorted — for all adjacent rows `(a, b)`,
`a.hotspot >= b.hotspot`, and when the scores tie the file names are in
ascending order. -/
theorem hotspot_rows_sorted (t : List FileChangeRecord) :
    List.Chain'
      (fun a b => b.hotspot ≤ a.hotspot ∧
        (a.hotspot = b.hotspot → a.file_name ≤ b.file_name))
      (hotspotAggregate t) := by
  have h : List.Sorted hotspotOrder (hotspotAggregate t) :=
    List.sorted_insertionSort hotspotOrder _
  refine h.chain'.imp ?_
  intro a b hab
  rcases hab with h1 | ⟨h2, h3⟩
  · exact ⟨Nat.le_of_lt h1, fun he => absurd h1 (by omega)⟩
  · exact ⟨Nat.le_of_eq h2.symm, fun _ => h3⟩

/-- C9: the plot and info handlers filter only when at least one of the
allow-files / ignore-files options is truthy (non-`None`, non-empty) and
otherwise pass the loaded table downstream unchanged, whereas the hotspot
and hotgraph handlers always pass the composed filter to the expansion
step. -/
theorem handlers_filter_application (allow ignore : Option (List String))
    (df : List FileChangeRecord) (cdf : List CommitRow) :
    (truthyList allow = false → truthyList ignore = false →
      handlePlotTable allow ignore df = df ∧
      handleInfoTable allow ignore df = df) ∧
    ((truthyList allow || truthyList ignore) = true →
      handlePlotTable allow ignore df =
        filterFiles df (composeFilter allow ignore) ∧
      handleInfoTable allow ignore df =
        filterFiles df (composeFilter allow ignore)) ∧
    handleHotspotInput allow ignore cdf =
      expandFiles cdf (composeFilter allow ignore) ∧
    handleHotgraphInput allow ignore cdf =
      expandFiles cdf (composeFilter allow ignore) := by
  refine ⟨?_, ?_, rfl, rfl⟩
  · intro ha hi
    constructor <;> simp [handlePlotTable, handleInfoTable, ha, hi]
  · intro h
    constructor <;> simp [handlePlotTable, handleInfoTable, h]

theorem handlers_filter_application_witness :
    handlePlotTable none none [⟨"h", "a", 0, "f.py"⟩] = [⟨"h", "a", 0, "f.py"⟩] ∧
    handleInfoTable none none [⟨"h", "a", 0, "f.py"⟩] = [⟨"h", "a", 0, "f.py"⟩] :=
  (handlers_filter_application none none [⟨"h", "a", 0, "f.py"⟩] []).1 rfl rfl
